import Mathlib

/-!
Verification of the hardware-ledger core of the EE461L portal backend
(server.js).  The three hardware routes are embedded shallowly:

  GET  /api/hardware                 -> getHardware / getHardwareEndpoint
  POST /api/hardware/:name/checkout  -> checkout / postCheckout
  POST /api/hardware/:name/checkin   -> checkin  / postCheckin

JavaScript numeric values reaching the ledger are either integers or NaN
(the result of parseInt on a missing or non-numeric body field), so they
are modelled as Option Int with none standing for NaN: arithmetic
propagates none, and every comparison against none is false, exactly as
NaN behaves under + and > in JavaScript.
-/

/-- One mongoose HardwareSet document: name is unique, capacity is fixed
at seeding, checkedOut is the mutable counter.  The checkedOut field has
type Option Int because the route code can store the result of
integer + NaN into it. -/
structure HardwareSet where
  name : String
  capacity : Int
  checkedOut : Option Int
deriving Repr, DecidableEq

/-- The hardware collection as the routes see it. -/
abbrev DB := List HardwareSet

/-- JavaScript addition restricted to the values that occur here:
integer + integer is exact, anything involving NaN is NaN. -/
def jsAdd : Option Int → Option Int → Option Int
  | some a, some b => some (a + b)
  | _, _ => none

/-- JavaScript subtraction, with NaN propagation. -/
def jsSub : Option Int → Option Int → Option Int
  | some a, some b => some (a - b)
  | _, _ => none

/-- JavaScript strict greater-than: any comparison with NaN is false. -/
def jsGt : Option Int → Option Int → Bool
  | some a, some b => decide (b < a)
  | _, _ => false

/-- ASCII uppercasing of one character, as String.prototype.toUpperCase
acts on the ASCII set names used by this service. -/
def jsUpperChar (c : Char) : Char :=
  if 97 ≤ c.toNat ∧ c.toNat ≤ 122 then Char.ofNat (c.toNat - 32) else c

/-- JavaScript String.prototype.toUpperCase on the ASCII strings this
service uses. -/
def jsToUpper (s : String) : String := String.mk (s.data.map jsUpperChar)

/-- HardwareSet.findOne with an exact name filter, as mongoose runs it:
the first document whose name equals the key. -/
def findOne (db : DB) (key : String) : Option HardwareSet :=
  db.find? (fun s => s.name == key)

/-- doc.save: write the updated document back, replacing the document
the preceding findOne returned (the first one matching the key). -/
def saveSet : DB → String → HardwareSet → DB
  | [], _, _ => []
  | s :: rest, key, u => if s.name == key then u :: rest else s :: saveSet rest key u

/-- The JSON responses the hardware routes produce.  badRequest carries
the numeric field the 400 body reports next to the message: available
for checkout, checkedOut for checkin.  The checkout message in the
source interpolates the available count into the text; here the text is
kept constant and the number is carried in the structured field. -/
inductive ApiResult where
  | ok (hardware : HardwareSet)
  | badRequest (msg : String) (bound : Option Int)
  | notFound (msg : String)
  | notAuthenticated
deriving Repr, DecidableEq

/-- POST /api/hardware/:name/checkout body, lines 257-289 of server.js,
after requireAuth has passed.  qty is the parseInt of the request body
quantity: some n for an integer, none for NaN. -/
def checkout (db : DB) (name : String) (qty : Option Int) : ApiResult × DB :=
  match findOne db (jsToUpper name) with
  | none => (ApiResult.notFound "Hardware not found", db)
  | some hwSet =>
    let available := jsSub (some hwSet.capacity) hwSet.checkedOut
    if jsGt qty available then
      (ApiResult.badRequest "Insufficient hardware" available, db)
    else
      let upd := { hwSet with checkedOut := jsAdd hwSet.checkedOut qty }
      (ApiResult.ok upd, saveSet db (jsToUpper name) upd)

/-- POST /api/hardware/:name/checkin body, lines 298-328 of server.js,
after requireAuth has passed. -/
def checkin (db : DB) (name : String) (qty : Option Int) : ApiResult × DB :=
  match findOne db (jsToUpper name) with
  | none => (ApiResult.notFound "Not found", db)
  | some hwSet =>
    if jsGt qty hwSet.checkedOut then
      (ApiResult.badRequest "Cannot check in more than checked out." hwSet.checkedOut, db)
    else
      let upd := { hwSet with checkedOut := jsSub hwSet.checkedOut qty }
      (ApiResult.ok upd, saveSet db (jsToUpper name) upd)

/-- requireAuth wrapped around checkout: with no session the middleware
answers 401 Not authenticated and the handler never runs. -/
def postCheckout (authed : Bool) (db : DB) (name : String) (qty : Option Int) :
    ApiResult × DB :=
  if authed then checkout db name qty else (ApiResult.notAuthenticated, db)

/-- requireAuth wrapped around checkin. -/
def postCheckin (authed : Bool) (db : DB) (name : String) (qty : Option Int) :
    ApiResult × DB :=
  if authed then checkin db name qty else (ApiResult.notAuthenticated, db)

/-- One entry of the GET /api/hardware response object. -/
structure HWStatus where
  capacity : Int
  checkedOut : Option Int
deriving Repr, DecidableEq

/-- Lexicographic order on character lists: the byte order MongoDB uses
to sort the ASCII set names. -/
def lexLe : List Char → List Char → Bool
  | [], _ => true
  | _ :: _, [] => false
  | a :: as, b :: bs => if a < b then true else if b < a then false else lexLe as bs

/-- Name order of the sort stage of the GET route. -/
def strLe (a b : String) : Bool := lexLe a.data b.data

/-- HardwareSet.find().sort with name ascending: insertion into an
already sorted list. -/
def insertByName (s : HardwareSet) : List HardwareSet → List HardwareSet
  | [] => [s]
  | t :: ts => if strLe s.name t.name then s :: t :: ts else t :: insertByName s ts

/-- HardwareSet.find().sort with name ascending. -/
def sortByName : List HardwareSet → List HardwareSet
  | [] => []
  | s :: ss => insertByName s (sortByName ss)

/-- GET /api/hardware handler body, lines 232-248 of server.js: the
response object maps each set name, in sorted order, to its capacity and
checkedOut. -/
def getHardware (db : DB) : List (String × HWStatus) :=
  (sortByName db).map (fun s => (s.name, HWStatus.mk s.capacity s.checkedOut))

/-- Outcome of the GET route: the try/catch turns a storage failure into
a 500 with a fixed message. -/
inductive FetchResult where
  | ok (hardware : List (String × HWStatus))
  | storageFailure (msg : String)
deriving Repr, DecidableEq

/-- GET /api/hardware including the storage boundary: none models the
store being unreachable (find() throws), some db a successful read.  The
second component is the store after the request: the route never writes. -/
def getHardwareEndpoint : Option DB → FetchResult × Option DB
  | none => (FetchResult.storageFailure "Failed to fetch hardware", none)
  | some db => (FetchResult.ok (getHardware db), some db)

/-- A mutating request against the ledger. -/
inductive Op where
  | checkoutOp (name : String) (qty : Option Int)
  | checkinOp (name : String) (qty : Option Int)
deriving Repr, DecidableEq

/-- The state left behind by one request. -/
def applyOp (db : DB) : Op → DB
  | Op.checkoutOp name qty => (checkout db name qty).2
  | Op.checkinOp name qty => (checkin db name qty).2

/-- The state after a finite sequence of requests. -/
def run (db : DB) (ops : List Op) : DB := ops.foldl applyOp db

/-- A well-formed counter: an actual integer within the capacity bound. -/
def goodSet (s : HardwareSet) : Bool :=
  match s.checkedOut with
  | none => false
  | some c => decide (0 ≤ c) && decide (c ≤ s.capacity)

/-- The data-model invariant: every set satisfies 0 ≤ checkedOut ≤ capacity. -/
def invariant (db : DB) : Prop := ∀ s ∈ db, goodSet s = true

instance (db : DB) : Decidable (invariant db) :=
  inferInstanceAs (Decidable (∀ s ∈ db, goodSet s = true))

/-- The two documents initializeHardware seeds on first start. -/
def seedDB : DB :=
  [⟨"HWSET1", 250, some 20⟩, ⟨"HWSET2", 300, some 70⟩]

/-- The checkout handler between its two awaits: given the snapshot the
findOne returned, the response and the document it will write back, if
any.  This factoring exposes the read-check-write structure used for the
concurrency analysis; checkout_eq_step below ties it to checkout. -/
def checkoutStep (snapshot : Option HardwareSet) (qty : Option Int) :
    ApiResult × Option HardwareSet :=
  match snapshot with
  | none => (ApiResult.notFound "Hardware not found", none)
  | some hwSet =>
    let available := jsSub (some hwSet.capacity) hwSet.checkedOut
    if jsGt qty available then
      (ApiResult.badRequest "Insufficient hardware" available, none)
    else
      let upd := { hwSet with checkedOut := jsAdd hwSet.checkedOut qty }
      (ApiResult.ok upd, some upd)

/-- Two checkout requests racing on the event loop under the schedule
read-1, read-2, write-1, write-2, so that both availability checks see
the stored count from before either write.  Each await in the handler
yields control, so the runtime permits this schedule. -/
def interleavedCheckouts (db : DB) (n1 n2 : String) (q1 q2 : Option Int) :
    (ApiResult × ApiResult) × DB :=
  let r1 := checkoutStep (findOne db (jsToUpper n1)) q1
  let r2 := checkoutStep (findOne db (jsToUpper n2)) q2
  let db1 := match r1.2 with
    | some u => saveSet db (jsToUpper n1) u
    | none => db
  let db2 := match r2.2 with
    | some u => saveSet db1 (jsToUpper n2) u
    | none => db1
  ((r1.1, r2.1), db2)

theorem findOne_mem {db : DB} {key : String} {s : HardwareSet}
    (h : findOne db key = some s) : s ∈ db :=
  List.mem_of_find?_eq_some h

theorem findOne_name {db : DB} {key : String} {s : HardwareSet}
    (h : findOne db key = some s) : s.name = key := by
  have hp := List.find?_some h
  simpa using hp

theorem mem_saveSet {db : DB} {key : String} {u t : HardwareSet}
    (h : t ∈ saveSet db key u) : t ∈ db ∨ t = u := by
  induction db with
  | nil => simp [saveSet] at h
  | cons s rest ih =>
    by_cases hs : (s.name == key) = true
    · simp [saveSet, hs] at h
      rcases h with h | h
      · right; exact h
      · left; exact List.mem_cons_of_mem _ h
    · simp [saveSet, hs] at h
      rcases h with h | h
      · left; simp [h]
      · rcases ih h with h2 | h2
        · left; exact List.mem_cons_of_mem _ h2
        · right; exact h2

theorem findOne_saveSet_self {db : DB} {key : String} {s u : HardwareSet}
    (h : findOne db key = some s) (hu : u.name = key) :
    findOne (saveSet db key u) key = some u := by
  induction db with
  | nil => simp [findOne] at h
  | cons t rest ih =>
    by_cases ht : (t.name == key) = true
    · simp [saveSet, ht, findOne, List.find?, hu]
    · simp [findOne, List.find?, ht] at h
      simp [saveSet, ht, findOne, List.find?]
      exact ih h

theorem saveSet_saveSet {db : DB} {key : String} {u v : HardwareSet}
    (hu : u.name = key) : saveSet (saveSet db key u) key v = saveSet db key v := by
  induction db with
  | nil => simp [saveSet]
  | cons t rest ih =>
    by_cases ht : (t.name == key) = true
    · simp [saveSet, ht, hu]
    · simp [saveSet, ht, ih]

theorem saveSet_self {db : DB} {key : String} {s : HardwareSet}
    (h : findOne db key = some s) : saveSet db key s = db := by
  induction db with
  | nil => simp [saveSet]
  | cons t rest ih =>
    by_cases ht : (t.name == key) = true
    · simp [findOne, List.find?, ht] at h
      subst h
      simp [saveSet, ht]
    · simp [findOne, List.find?, ht] at h
      simp [saveSet, ht, ih h]

theorem saveSet_map_shape {α : Type} (f : HardwareSet → α) {db : DB} {key : String}
    {s u : HardwareSet} (h : findOne db key = some s) (hf : f u = f s) :
    (saveSet db key u).map f = db.map f := by
  induction db with
  | nil => simp [saveSet]
  | cons t rest ih =>
    by_cases ht : (t.name == key) = true
    · simp [findOne, List.find?, ht] at h
      subst h
      simp [saveSet, ht, hf]
    · simp [findOne, List.find?, ht] at h
      simp [saveSet, ht, ih h]

theorem checkout_reject {db : DB} {name : String} {q : Int} {s : HardwareSet} {c : Int}
    (hfind : findOne db (jsToUpper name) = some s) (hc : s.checkedOut = some c)
    (h : s.capacity - c < q) :
    checkout db name (some q) =
      (ApiResult.badRequest "Insufficient hardware" (some (s.capacity - c)), db) := by
  simp [checkout, hfind, hc, jsSub, jsGt, h]

theorem checkout_success {db : DB} {name : String} {q : Int} {s : HardwareSet} {c : Int}
    (hfind : findOne db (jsToUpper name) = some s) (hc : s.checkedOut = some c)
    (h : q ≤ s.capacity - c) :
    checkout db name (some q) =
      (ApiResult.ok { s with checkedOut := some (c + q) },
       saveSet db (jsToUpper name) { s with checkedOut := some (c + q) }) := by
  have hng : ¬ (s.capacity - c < q) := not_lt.mpr h
  simp [checkout, hfind, hc, jsSub, jsGt, jsAdd, hng]

theorem checkin_reject {db : DB} {name : String} {q : Int} {s : HardwareSet} {c : Int}
    (hfind : findOne db (jsToUpper name) = some s) (hc : s.checkedOut = some c)
    (h : c < q) :
    checkin db name (some q) =
      (ApiResult.badRequest "Cannot check in more than checked out." (some c), db) := by
  simp [checkin, hfind, hc, jsGt, h]

theorem checkin_success {db : DB} {name : String} {q : Int} {s : HardwareSet} {c : Int}
    (hfind : findOne db (jsToUpper name) = some s) (hc : s.checkedOut = some c)
    (h : q ≤ c) :
    checkin db name (some q) =
      (ApiResult.ok { s with checkedOut := some (c - q) },
       saveSet db (jsToUpper name) { s with checkedOut := some (c - q) }) := by
  have hng : ¬ (c < q) := not_lt.mpr h
  simp [checkin, hfind, hc, jsGt, jsSub, hng]

theorem checkout_preserves {db : DB} {name : String} {n : Int}
    (hinv : invariant db) (hn : 0 ≤ n) :
    invariant (checkout db name (some n)).2 := by
  cases hfind : findOne db (jsToUpper name) with
  | none => simpa [checkout, hfind] using hinv
  | some s =>
    have hgood := hinv s (findOne_mem hfind)
    cases hc : s.checkedOut with
    | none => simp [goodSet, hc] at hgood
    | some c =>
      rw [goodSet, hc] at hgood
      simp at hgood
      obtain ⟨hc0, hcc⟩ := hgood
      rcases lt_or_le (s.capacity - c) n with hlt | hle
      · rw [checkout_reject hfind hc hlt]
        exact hinv
      · rw [checkout_success hfind hc hle]
        intro t ht
        rcases mem_saveSet ht with h | h
        · exact hinv t h
        · subst h
          simp [goodSet]
          omega

theorem checkin_preserves {db : DB} {name : String} {n : Int}
    (hinv : invariant db) (hn : 0 ≤ n) :
    invariant (checkin db name (some n)).2 := by
  cases hfind : findOne db (jsToUpper name) with
  | none => simpa [checkin, hfind] using hinv
  | some s =>
    have hgood := hinv s (findOne_mem hfind)
    cases hc : s.checkedOut with
    | none => simp [goodSet, hc] at hgood
    | some c =>
      rw [goodSet, hc] at hgood
      simp at hgood
      obtain ⟨hc0, hcc⟩ := hgood
      rcases lt_or_le c n with hlt | hle
      · rw [checkin_reject hfind hc hlt]
        exact hinv
      · rw [checkin_success hfind hc hle]
        intro t ht
        rcases mem_saveSet ht with h | h
        · exact hinv t h
        · subst h
          simp [goodSet]
          omega

theorem lexLe_total (a b : List Char) : lexLe a b = true ∨ lexLe b a = true := by
  induction a generalizing b with
  | nil => left; rfl
  | cons x as ih =>
    cases b with
    | nil => right; rfl
    | cons y bs =>
      rcases lt_trichotomy x y with h | h | h
      · left; simp [lexLe, h]
      · subst h
        rcases ih bs with h2 | h2
        · left; simp [lexLe, lt_irrefl, h2]
        · right; simp [lexLe, lt_irrefl, h2]
      · right; simp [lexLe, h]

theorem lexLe_trans {a b c : List Char} (h1 : lexLe a b = true) (h2 : lexLe b c = true) :
    lexLe a c = true := by
  induction a generalizing b c with
  | nil => rfl
  | cons x as ih =>
    cases b with
    | nil => simp [lexLe] at h1
    | cons y bs =>
      cases c with
      | nil => simp [lexLe] at h2
      | cons z cs =>
        rcases lt_trichotomy x y with hxy | hxy | hxy
        · rcases lt_trichotomy y z with hyz | hyz | hyz
          · simp [lexLe, lt_trans hxy hyz]
          · subst hyz; simp [lexLe, hxy]
          · simp [lexLe, hyz, not_lt_of_gt hyz] at h2
        · subst hxy
          rcases lt_trichotomy x z with hxz | hxz | hxz
          · simp [lexLe, hxz]
          · subst hxz
            simp [lexLe, lt_irrefl] at h1 h2 ⊢
            exact ih h1 h2
          · simp [lexLe, hxz, not_lt_of_gt hxz] at h2
        · simp [lexLe, hxy, not_lt_of_gt hxy] at h1

theorem strLe_total (a b : String) : strLe a b = true ∨ strLe b a = true :=
  lexLe_total a.data b.data

theorem strLe_trans {a b c : String} (h1 : strLe a b = true) (h2 : strLe b c = true) :
    strLe a c = true :=
  lexLe_trans h1 h2

theorem mem_insertByName {s t : HardwareSet} {l : List HardwareSet}
    (h : t ∈ insertByName s l) : t = s ∨ t ∈ l := by
  induction l with
  | nil => simp [insertByName] at h; left; exact h
  | cons u us ih =>
    by_cases hle : strLe s.name u.name = true
    · simp [insertByName, hle] at h
      rcases h with h | h | h
      · left; exact h
      · right; simp [h]
      · right; exact List.mem_cons_of_mem _ h
    · simp [insertByName, hle] at h
      rcases h with h | h
      · right; simp [h]
      · rcases ih h with h2 | h2
        · left; exact h2
        · right; exact List.mem_cons_of_mem _ h2

theorem pairwise_insertByName {s : HardwareSet} {l : List HardwareSet}
    (h : l.Pairwise (fun a b => strLe a.name b.name = true)) :
    (insertByName s l).Pairwise (fun a b => strLe a.name b.name = true) := by
  induction l with
  | nil => simp [insertByName]
  | cons u us ih =>
    rw [List.pairwise_cons] at h
    obtain ⟨hu, hus⟩ := h
    by_cases hle : strLe s.name u.name = true
    · have hins : insertByName s (u :: us) = s :: u :: us := by
        simp [insertByName, hle]
      rw [hins, List.pairwise_cons]
      constructor
      · intro t ht
        rcases List.mem_cons.mp ht with rfl | ht2
        · exact hle
        · exact strLe_trans hle (hu t ht2)
      · rw [List.pairwise_cons]
        exact ⟨hu, hus⟩
    · have hins : insertByName s (u :: us) = u :: insertByName s us := by
        simp [insertByName, hle]
      rw [hins, List.pairwise_cons]
      constructor
      · intro t ht
        rcases mem_insertByName ht with ht2 | ht2
        · rw [ht2]
          rcases strLe_total s.name u.name with h2 | h2
          · exact absurd h2 hle
          · exact h2
        · exact hu t ht2
      · exact ih hus

theorem pairwise_sortByName (l : List HardwareSet) :
    (sortByName l).Pairwise (fun a b => strLe a.name b.name = true) := by
  induction l with
  | nil => simp [sortByName]
  | cons s ss ih => exact pairwise_insertByName ih

theorem insertByName_perm (s : HardwareSet) (l : List HardwareSet) :
    List.Perm (insertByName s l) (s :: l) := by
  induction l with
  | nil => simp [insertByName]
  | cons u us ih =>
    by_cases hle : strLe s.name u.name = true
    · simp [insertByName, hle]
    · simp only [insertByName, hle, if_false]
      exact (List.Perm.cons u ih).trans (List.Perm.swap s u us)

theorem sortByName_perm (l : List HardwareSet) : List.Perm (sortByName l) l := by
  induction l with
  | nil => simp [sortByName]
  | cons s ss ih => exact (insertByName_perm s (sortByName ss)).trans (List.Perm.cons s ih)

/-- A request whose parsed quantity is a non-negative integer. -/
def opQtyNonneg : Op → Bool
  | Op.checkoutOp _ (some n) => decide (0 ≤ n)
  | Op.checkoutOp _ none => false
  | Op.checkinOp _ (some n) => decide (0 ≤ n)
  | Op.checkinOp _ none => false

theorem run_preserves (ops : List Op) :
    ∀ db : DB, invariant db → (∀ op ∈ ops, opQtyNonneg op = true) →
      invariant (run db ops) := by
  induction ops with
  | nil => intro db hinv _; exact hinv
  | cons op rest ih =>
    intro db hinv hops
    have hop := hops op (List.mem_cons_self op rest)
    have hrest : ∀ o ∈ rest, opQtyNonneg o = true :=
      fun o ho => hops o (List.mem_cons_of_mem _ ho)
    have hstep : invariant (applyOp db op) := by
      cases op with
      | checkoutOp name qty =>
        cases qty with
        | none => simp [opQtyNonneg] at hop
        | some n =>
          simp [opQtyNonneg] at hop
          exact checkout_preserves hinv hop
      | checkinOp name qty =>
        cases qty with
        | none => simp [opQtyNonneg] at hop
        | some n =>
          simp [opQtyNonneg] at hop
          exact checkin_preserves hinv hop
    exact ih (applyOp db op) hstep hrest

/-- C1 counterexample: from the in-range state HWSET1 capacity 250,
checkedOut 20, a single Checkout request whose quantity parses to -25 is
accepted by the code and leaves checkedOut = -5, outside the range
0 ≤ checkedOut ≤ capacity.  The claim that arbitrary quantity request
values preserve the range is therefore false of the code. -/
theorem C1_counterexample :
    invariant [⟨"HWSET1", 250, some 20⟩] ∧
    ¬ invariant (run [⟨"HWSET1", 250, some 20⟩] [Op.checkoutOp "HWSET1" (some (-25))]) := by
  decide

/-- C1 (amended): for every finite sequence of Checkout and Checkin
calls with arbitrary set names whose quantities parse to non-negative
integers, applied to a state where every set satisfies
0 ≤ checkedOut ≤ capacity, every set still satisfies
0 ≤ checkedOut ≤ capacity after the sequence (hence after each call,
since every prefix is such a sequence). -/
theorem C1_invariant_preserved (db : DB) (ops : List Op)
    (hinv : invariant db) (hops : ∀ op ∈ ops, opQtyNonneg op = true) :
    invariant (run db ops) :=
  run_preserves ops db hinv hops

theorem C1_invariant_preserved_witness :
    invariant seedDB ∧
    invariant (run seedDB [Op.checkoutOp "HWSET1" (some 50), Op.checkinOp "hwset2" (some 30)]) :=
  ⟨by decide, C1_invariant_preserved seedDB
    [Op.checkoutOp "HWSET1" (some 50), Op.checkinOp "hwset2" (some 30)] (by decide) (by decide)⟩

/-- C2 (code bug, evaluated at the failing inputs): a missing or
non-numeric quantity parses to NaN, NaN > available and
NaN > checkedOut are false, so both Checkout and Checkin accept the
request and store checkedOut = NaN; a zero quantity is accepted as a
no-op write; a negative quantity is accepted and subtracted.  None of
these is rejected before mutation, contradicting the claimed validation. -/
theorem C2_no_quantity_validation :
    checkout [⟨"HWSET1", 250, some 20⟩] "HWSET1" none =
      (ApiResult.ok ⟨"HWSET1", 250, none⟩, [⟨"HWSET1", 250, none⟩]) ∧
    checkin [⟨"HWSET1", 250, some 20⟩] "HWSET1" none =
      (ApiResult.ok ⟨"HWSET1", 250, none⟩, [⟨"HWSET1", 250, none⟩]) ∧
    checkout [⟨"HWSET1", 250, some 20⟩] "HWSET1" (some 0) =
      (ApiResult.ok ⟨"HWSET1", 250, some 20⟩, [⟨"HWSET1", 250, some 20⟩]) ∧
    checkout [⟨"HWSET1", 250, some 20⟩] "HWSET1" (some (-25)) =
      (ApiResult.ok ⟨"HWSET1", 250, some (-5)⟩, [⟨"HWSET1", 250, some (-5)⟩]) := by
  decide

/-- C3: for an existing set with integer checkedOut c, a checkout of an
integer quantity q is rejected with a 400 reporting the pre-call
available = capacity - c and no state change when q > available, and
otherwise succeeds, stores checkedOut = c + q and returns the updated
set. -/
theorem C3_checkout_contract (db : DB) (name : String) (q : Int) (s : HardwareSet) (c : Int)
    (hfind : findOne db (jsToUpper name) = some s) (hc : s.checkedOut = some c) :
    (s.capacity - c < q →
      checkout db name (some q) =
        (ApiResult.badRequest "Insufficient hardware" (some (s.capacity - c)), db)) ∧
    (q ≤ s.capacity - c →
      checkout db name (some q) =
        (ApiResult.ok { s with checkedOut := some (c + q) },
         saveSet db (jsToUpper name) { s with checkedOut := some (c + q) })) :=
  ⟨fun h => checkout_reject hfind hc h, fun h => checkout_success hfind hc h⟩

theorem C3_checkout_contract_witness :
    checkout seedDB "HWSET1" (some 50) =
      (ApiResult.ok ⟨"HWSET1", 250, some (20 + 50)⟩,
       saveSet seedDB (jsToUpper "HWSET1") ⟨"HWSET1", 250, some (20 + 50)⟩) :=
  (C3_checkout_contract seedDB "HWSET1" 50 ⟨"HWSET1", 250, some 20⟩ 20
    (by decide) rfl).2 (by decide)

/-- C4: for an existing set with integer checkedOut c, a checkin of an
integer quantity q is rejected with a 400 reporting the pre-call
checkedOut and no state change when q > c, and otherwise succeeds,
stores checkedOut = c - q and returns the updated set. -/
theorem C4_checkin_contract (db : DB) (name : String) (q : Int) (s : HardwareSet) (c : Int)
    (hfind : findOne db (jsToUpper name) = some s) (hc : s.checkedOut = some c) :
    (c < q →
      checkin db name (some q) =
        (ApiResult.badRequest "Cannot check in more than checked out." (some c), db)) ∧
    (q ≤ c →
      checkin db name (some q) =
        (ApiResult.ok { s with checkedOut := some (c - q) },
         saveSet db (jsToUpper name) { s with checkedOut := some (c - q) })) :=
  ⟨fun h => checkin_reject hfind hc h, fun h => checkin_success hfind hc h⟩

theorem C4_checkin_contract_witness :
    checkin seedDB "HWSET1" (some 100) =
      (ApiResult.badRequest "Cannot check in more than checked out." (some 20), seedDB) :=
  (C4_checkin_contract seedDB "HWSET1" 100 ⟨"HWSET1", 250, some 20⟩ 20
    (by decide) rfl).1 (by decide)

theorem checkout_eq_step (db : DB) (name : String) (qty : Option Int) :
    checkout db name qty =
      ((checkoutStep (findOne db (jsToUpper name)) qty).1,
       match (checkoutStep (findOne db (jsToUpper name)) qty).2 with
       | some u => saveSet db (jsToUpper name) u
       | none => db) := by
  cases hfind : findOne db (jsToUpper name) with
  | none => simp [checkout, checkoutStep, hfind]
  | some s =>
    by_cases hq : jsGt qty (jsSub (some s.capacity) s.checkedOut) = true
    · simp [checkout, checkoutStep, hfind, hq]
    · simp [checkout, checkoutStep, hfind, hq]

/-- C5 (code bug, evaluated at the failing schedule): from HWSET1 with
capacity 250 and checkedOut 20, two checkout requests for 200 and 100
interleaved as read-read-write-write both pass the availability check
against the stale count 20 and both answer 200 (the first update is then
lost), whereas under the claimed per-set mutual exclusion, run serially
in either order, the second request is rejected with the
insufficient-hardware error.  The handler is a plain read-then-write, so
it does not behave as if executed under a per-set lock. -/
theorem C5_race_counterexample :
    interleavedCheckouts [⟨"HWSET1", 250, some 20⟩] "HWSET1" "HWSET1" (some 200) (some 100) =
      ((ApiResult.ok ⟨"HWSET1", 250, some 220⟩, ApiResult.ok ⟨"HWSET1", 250, some 120⟩),
       [⟨"HWSET1", 250, some 120⟩]) ∧
    (checkout (checkout [⟨"HWSET1", 250, some 20⟩] "HWSET1" (some 200)).2
        "HWSET1" (some 100)).1 =
      ApiResult.badRequest "Insufficient hardware" (some 30) ∧
    (checkout (checkout [⟨"HWSET1", 250, some 20⟩] "HWSET1" (some 100)).2
        "HWSET1" (some 200)).1 =
      ApiResult.badRequest "Insufficient hardware" (some 130) := by
  decide

/-- C6: from any state in which the set named by the request exists with
integer checkedOut c ≥ 0, a Checkout of any accepted quantity q
(q ≤ capacity - c) followed by a Checkin of the same q on the same name
returns the store to exactly its prior state, so checkedOut returns to
its value before the Checkout. -/
theorem C6_roundtrip (db : DB) (name : String) (q : Int) (s : HardwareSet) (c : Int)
    (hfind : findOne db (jsToUpper name) = some s)
    (hc : s.checkedOut = some c) (hc0 : 0 ≤ c) (hq : q ≤ s.capacity - c) :
    (checkout db name (some q)).1 = ApiResult.ok { s with checkedOut := some (c + q) } ∧
    (checkin (checkout db name (some q)).2 name (some q)).2 = db := by
  have hco := checkout_success hfind hc hq
  have hu_name : ({ s with checkedOut := some (c + q) } : HardwareSet).name = jsToUpper name := by
    simpa using findOne_name hfind
  constructor
  · rw [hco]
  · rw [hco]
    have hf2 : findOne (saveSet db (jsToUpper name) { s with checkedOut := some (c + q) })
        (jsToUpper name) = some { s with checkedOut := some (c + q) } :=
      findOne_saveSet_self hfind hu_name
    have hqc : q ≤ c + q := by omega
    have hci := checkin_success hf2 rfl hqc
    have hu2 : ({ ({ s with checkedOut := some (c + q) } : HardwareSet) with
        checkedOut := some (c + q - q) } : HardwareSet) = s := by
      have hcq : c + q - q = c := by omega
      rw [hcq, ← hc]
    rw [hci, hu2]
    show saveSet (saveSet db (jsToUpper name) { s with checkedOut := some (c + q) })
        (jsToUpper name) s = db
    rw [saveSet_saveSet hu_name, saveSet_self hfind]

theorem C6_roundtrip_witness :
    (checkout seedDB "HWSET1" (some 50)).1 =
      ApiResult.ok ⟨"HWSET1", 250, some (20 + 50)⟩ ∧
    (checkin (checkout seedDB "HWSET1" (some 50)).2 "HWSET1" (some 50)).2 = seedDB :=
  C6_roundtrip seedDB "HWSET1" 50 ⟨"HWSET1", 250, some 20⟩ 20
    (by decide) rfl (by decide) (by decide)

/-- C7: when every stored set name is already uppercase (true of every
reachable store: seeding writes HWSET1 and HWSET2 and no operation
rewrites a name), the findOne on the uppercased request name succeeds
exactly when the requested name matches some stored name
case-insensitively; and when no set matches, both Checkout and Checkin
answer 404 not-found, create no row and leave the store unchanged. -/
theorem C7_lookup_case_insensitive (db : DB) (n : String) (q : Option Int)
    (hup : ∀ s ∈ db, jsToUpper s.name = s.name) :
    ((findOne db (jsToUpper n)).isSome = true ↔ ∃ s ∈ db, jsToUpper n = jsToUpper s.name) ∧
    (findOne db (jsToUpper n) = none →
      checkout db n q = (ApiResult.notFound "Hardware not found", db) ∧
      checkin db n q = (ApiResult.notFound "Not found", db)) := by
  constructor
  · rw [findOne, List.find?_isSome]
    constructor
    · rintro ⟨s, hs, hp⟩
      refine ⟨s, hs, ?_⟩
      have hsn : s.name = jsToUpper n := by simpa using hp
      rw [hup s hs]
      exact hsn.symm
    · rintro ⟨s, hs, hmatch⟩
      have hsn : s.name = jsToUpper n := (hmatch.trans (hup s hs)).symm
      exact ⟨s, hs, by simp [hsn]⟩
  · intro hnone
    exact ⟨by simp [checkout, hnone], by simp [checkin, hnone]⟩

theorem C7_lookup_case_insensitive_witness :
    (((findOne seedDB (jsToUpper "hwset1")).isSome = true ↔
       ∃ s ∈ seedDB, jsToUpper "hwset1" = jsToUpper s.name)) ∧
    (findOne seedDB (jsToUpper "hwset1") = none →
      checkout seedDB "hwset1" (some 1) = (ApiResult.notFound "Hardware not found", seedDB) ∧
      checkin seedDB "hwset1" (some 1) = (ApiResult.notFound "Not found", seedDB)) :=
  C7_lookup_case_insensitive seedDB "hwset1" (some 1) (by decide)

/-- C8: on an available store, GET /api/hardware answers with the
mapping that sends each set name to its capacity and checkedOut, its
entries are in ascending name order, the entries are exactly those of
the stored sets, and the store is left unchanged; on an unavailable
store it answers only with the storage-failure error. -/
theorem C8_get_status (db : DB) :
    getHardwareEndpoint (some db) = (FetchResult.ok (getHardware db), some db) ∧
    (getHardware db).Pairwise (fun a b => strLe a.1 b.1 = true) ∧
    List.Perm (getHardware db)
      (db.map (fun s => (s.name, HWStatus.mk s.capacity s.checkedOut))) ∧
    getHardwareEndpoint none = (FetchResult.storageFailure "Failed to fetch hardware", none) := by
  refine ⟨rfl, ?_, ?_, rfl⟩
  · rw [getHardware, List.pairwise_map]
    exact pairwise_sortByName db
  · exact (sortByName_perm db).map _

/-- C9: no exposed operation changes the name or the capacity of any
stored set: a Checkout or Checkin request, whatever its set name and
quantity, leaves the list of (name, capacity) pairs of the store
pointwise unchanged, and GetStatus leaves the store itself unchanged. -/
theorem C9_frame (db : DB) (op : Op) :
    (applyOp db op).map (fun s => (s.name, s.capacity)) =
      db.map (fun s => (s.name, s.capacity)) ∧
    (getHardwareEndpoint (some db)).2 = some db := by
  refine ⟨?_, rfl⟩
  cases op with
  | checkoutOp name qty =>
    cases hfind : findOne db (jsToUpper name) with
    | none => simp [applyOp, checkout, hfind]
    | some s =>
      by_cases hq : jsGt qty (jsSub (some s.capacity) s.checkedOut) = true
      · simp [applyOp, checkout, hfind, hq]
      · simp only [applyOp, checkout, hfind, hq, if_false, Bool.false_eq_true]
        exact saveSet_map_shape _ hfind rfl
  | checkinOp name qty =>
    cases hfind : findOne db (jsToUpper name) with
    | none => simp [applyOp, checkin, hfind]
    | some s =>
      by_cases hq : jsGt qty s.checkedOut = true
      · simp [applyOp, checkin, hfind, hq]
      · simp only [applyOp, checkin, hfind, hq, if_false, Bool.false_eq_true]
        exact saveSet_map_shape _ hfind rfl

/-- C10: the read endpoint GET /api/hardware carries no requireAuth
guard, so with no session it still answers the full hardware mapping,
while POST checkout and POST checkin with no session are answered 401
Not authenticated by the guard with the store untouched. -/
theorem C10_read_open_writes_guarded (db : DB) (name : String) (qty : Option Int) :
    getHardwareEndpoint (some db) = (FetchResult.ok (getHardware db), some db) ∧
    postCheckout false db name qty = (ApiResult.notAuthenticated, db) ∧
    postCheckin false db name qty = (ApiResult.notAuthenticated, db) :=
  ⟨rfl, rfl, rfl⟩
